import Mathlib

/-!
Verification of the clip-sequencing engine of the AdGenerator repository
(`src/main.py`): the duration probes, the asset-pool selector
(`download_specific_videos_from_folder`), the timeline compiler
(`compile_videos`) and the caption-timing heuristic
(`estimate_word_timing`), shallowly embedded in Lean.  Python floats are
modelled as rationals, external effects (ffmpeg child processes, the
random generator) as explicit oracle inputs, and the compile loop as a
fuel-indexed step function so that non-termination is observable.
-/

namespace AdGen

/-! ## Definitions -/

/-- Outcome of one invocation of the external media tool in probe mode
(main.py lines 777-791): the subprocess call may raise (`toolError`),
or succeed while its diagnostic output has no `Duration: HH:MM:SS.ms`
token (`noMatch`), or yield the three parsed fields. -/
inductive ProbeOutcome where
  | toolError : ProbeOutcome
  | noMatch : ProbeOutcome
  | parsed (h m : ℕ) (s : ℚ) : ProbeOutcome
deriving DecidableEq

/-- Python function `get_video_duration` (main.py lines 777-791): on a
successful parse returns `h*3600 + m*60 + s`; on a failed regex match
returns the constant `5.0`, and the surrounding try/except turns a raising
tool invocation into the same `5.0`.  Total by construction: the Python
function never raises. -/
def get_video_duration : ProbeOutcome → ℚ
  | .toolError => 5
  | .noMatch => 5
  | .parsed h m s => h * 3600 + m * 60 + s

/-- Python function `get_audio_duration` (main.py lines 1523-1534): no
try/except around the tool invocation; on a failed regex match (`none`)
returns `10.0`, else the parsed `h*3600 + m*60 + s`. -/
def get_audio_duration : Option (ℕ × ℕ × ℚ) → ℚ
  | none => 10
  | some (h, m, s) => h * 3600 + m * 60 + s

/-- Average clip length assumed by the selector, `avg_clip_duration = 2.5`
(main.py line 919). -/
def avgClipDuration : ℚ := 5/2

/-- The selector's clip-count estimate
`clips_needed = int(target_duration / avg_clip_duration) + 1`
(main.py line 920); this branch runs only for `target_duration > 0`, where
Python `int` truncation is the floor. -/
def clipsNeeded (target : ℚ) : ℕ := ⌊target / avgClipDuration⌋₊ + 1

/-- The selector's video count (main.py lines 924-927):
`videos_needed = max(3, min(clips_needed // 2, pool))`, REPLACED whenever
`target_duration > 15` by `max(3, min(5, pool))`. -/
def videosNeeded (target : ℚ) (pool : ℕ) : ℕ :=
  if 15 < target then max 3 (min 5 pool)
  else max 3 (min (clipsNeeded target / 2) pool)

/-- The selector's final count `num_to_select = min(videos_needed, len(video_info))`
(main.py line 929). -/
def numToSelect (target : ℚ) (pool : ℕ) : ℕ := min (videosNeeded target pool) pool

/-- One duplicate-scene test of the seen-set loop (main.py lines 885-890):
the candidate id `scene` is considered a duplicate of an already-kept id
`seen` when they are equal, or when the CANDIDATE is longer than 10
characters and the two ids agree on their first 10 characters. -/
def isDupScene (scene seen : String) : Bool :=
  scene == seen || (decide (10 < scene.length) && scene.take 10 == seen.take 10)

/-- The seen-set filtering loop of `download_specific_videos_from_folder`
(main.py lines 877-908): a scene id is kept unless `isDupScene` flags it
against some already-kept id; every kept id joins the seen set (it does so
on both the normal and the exception arm of the loop body). -/
def dedupScenesAux : List String → List String → List String
  | [], _ => []
  | x :: xs, seen =>
    if seen.any (fun s => isDupScene x s) then dedupScenesAux xs seen
    else x :: dedupScenesAux xs (x :: seen)

/-- Character-wise lowercasing, modelling Python's `str.lower()`. -/
def lowerString (s : String) : String := String.mk (s.data.map Char.toLower)

/-- Scene ids surviving the duplicate filter, in input order: the stems are
lowercased (`video_path.stem.lower()`, main.py line 882) and passed through
the seen-set loop starting from an empty seen set. -/
def dedupScenes (stems : List String) : List String :=
  dedupScenesAux (stems.map lowerString) []

/-- A cached relative video path, as the ordered list of its
separator-delimited components, each a character list; the last component
is the file name. -/
abbrev CPath := List (List Char)

/-- Character-wise lowercase of a character list (Python `str.lower()`). -/
def lowerChars (s : List Char) : List Char := s.map Char.toLower

/-- Python's `str(video_path)`: the path components joined by the path
separator character. -/
def pathString (p : CPath) : List Char := List.intercalate ['/'] p

/-- Strategy 1 (main.py lines 828-832): keep the videos whose full
lowercased path string contains the lowercased category name as a
substring. -/
def strategyOne (folderLower : List Char) (videos : List CPath) : List CPath :=
  videos.filter (fun v => decide (folderLower <:+: lowerChars (pathString v)))

/-- The names of a relative path's parent directories: every component but
the last (the terminal dot parent has the empty name, which the code's
`if parent.name` guard discards). -/
def parentNames (v : CPath) : List (List Char) := v.dropLast

/-- Strategy 2 (main.py lines 834-840): keep the videos one of whose
non-empty parent directory names contains the lowercased category name. -/
def strategyTwo (folderLower : List Char) (videos : List CPath) : List CPath :=
  videos.filter (fun v =>
    (parentNames v).any (fun n => !n.isEmpty && decide (folderLower <:+: lowerChars n)))

/-- Strategy 3 (main.py lines 842-850): keep the videos whose lowercased
path contains some word of the category name longer than 3 characters. -/
def strategyThree (folderWords : List (List Char)) (videos : List CPath) : List CPath :=
  videos.filter (fun v =>
    folderWords.any (fun w => decide (3 < w.length) && decide (w <:+: lowerChars (pathString v))))

/-- `matching_videos` (main.py lines 824-850): Strategy 1, falling back to
Strategy 2 and then to Strategy 3 whenever the strategies before matched
nothing. -/
def matchingVideos (folderLower : List Char) (folderWords : List (List Char))
    (videos : List CPath) : List CPath :=
  let m1 := strategyOne folderLower videos
  if m1.isEmpty then
    let m2 := strategyTwo folderLower videos
    if m2.isEmpty then strategyThree folderWords videos else m2
  else m1

/-- Modelled from the claim for comparison: the same fallback chain with
Strategy 2 removed; refinement claim C10 states `matchingVideos` equals
this variant. -/
def matchingVideosNoStratTwo (folderLower : List Char) (folderWords : List (List Char))
    (videos : List CPath) : List CPath :=
  let m1 := strategyOne folderLower videos
  if m1.isEmpty then strategyThree folderWords videos else m1

/-- Result of one attempted segment cut (main.py lines 1650-1677): the
ffmpeg child process may exit 0 with an output file over the 10000-byte
sanity threshold (`success`), exit 0 but leave a missing or undersized
file (`smallFile`), or exit nonzero, raising `CalledProcessError`
(`procError`). -/
inductive CutOutcome where
  | success : CutOutcome
  | smallFile : CutOutcome
  | procError : CutOutcome
deriving DecidableEq

/-- Why the while-loop of `compile_videos` stopped: its condition became
false (`targetReached`), the `segment_idx > 1000` break fired
(`absCeiling`), the `segment_idx >= len(paths) * 10` break on the
process-error arm fired (`procCeiling`), or the modelling fuel ran out
while the loop was still going (`fuelOut` - the Python loop itself has no
such bound). -/
inductive ExitReason where
  | targetReached : ExitReason
  | absCeiling : ExitReason
  | procCeiling : ExitReason
  | fuelOut : ExitReason
deriving DecidableEq

/-- One segment appended to the concat list: the `segment_idx` it was
numbered with, the clip duration cut, the source path and the start
offset used. -/
structure SegRec where
  idx : ℕ
  dur : ℚ
  src : String
  off : ℚ
deriving DecidableEq

/-- The inputs of `compile_videos` (main.py lines 1536-1537) together with
oracles for its effectful calls: `durations` records what
`get_video_duration` returned per path (lines 1567-1577), `clipOf` the
`random.uniform(2, 3)` draw of each loop iteration (line 1629), and
`outcomeOf` the fate of each iteration's ffmpeg cut. -/
structure Cfg where
  paths : List String
  target : ℚ
  timelines : List (String × List (ℚ × ℚ))
  pathFolder : Option (List (String × String))
  durations : String → ℚ
  clipOf : ℕ → ℚ
  outcomeOf : ℕ → CutOutcome

/-- The loop state: per-source playheads (`video_positions`), elapsed
output time (`current_time`), the segment counter (`segment_idx`), the
ordered concat list, the per-folder cycle counters
(`folder_video_indices`), plus two pieces of instrumentation the code
keeps implicitly: `failCount` counts process-error cut failures and `iter`
counts loop iterations (indexing the oracles). -/
structure St where
  positions : String → ℚ
  currentTime : ℚ
  segmentIdx : ℕ
  segments : List SegRec
  failCount : ℕ
  folderIdx : String → ℕ
  iter : ℕ

/-- Python `dict.get` with a default over an association list. -/
def lookupD (m : List (String × String)) (k d : String) : String := (m.lookup k).getD d

/-- Append a path to its folder's group, keeping first-seen folder order
(the insertion order of a Python dict). -/
def addToGroup (g : List (String × List String)) (f p : String) : List (String × List String) :=
  match g with
  | [] => [(f, [p])]
  | (f₀, ps) :: rest =>
    if f₀ = f then (f₀, ps ++ [p]) :: rest else (f₀, ps) :: addToGroup rest f p

/-- `videos_by_folder` (main.py lines 1549-1558): grouped in first-seen
order when a path-to-folder map is supplied (missing keys default to
"unknown"); with no map - or an empty one, falsy in Python - a single
"unknown" group holds all paths. -/
def videosByFolder (cfg : Cfg) : List (String × List String) :=
  match cfg.pathFolder with
  | some m =>
    if m.isEmpty then [("unknown", cfg.paths)]
    else cfg.paths.foldl (fun g p => addToGroup g (lookupD m p "unknown") p) []
  | none => [("unknown", cfg.paths)]

/-- `use_timeline` (main.py line 1560): a timelines mapping was supplied
and is non-empty. -/
def useTimeline (cfg : Cfg) : Bool := !cfg.timelines.isEmpty

/-- `get_folder_for_time` (main.py lines 1588-1597): the first folder in
mapping order one of whose windows satisfies `start <= t < end`; when no
window matches, the FIRST key of `videos_by_folder` (not a flat-round-robin
marker), or `none` when that grouping is empty.  `none` outside timeline
mode. -/
def getFolderForTime (cfg : Cfg) (t : ℚ) : Option String :=
  if useTimeline cfg then
    match cfg.timelines.find?
        (fun fs => fs.2.any (fun se => decide (se.1 ≤ t) && decide (t < se.2))) with
    | some fs => some fs.1
    | none => (videosByFolder cfg).head?.map Prod.fst
  else none

/-- `paths[i % len(paths)]`, the flat round-robin over all sources (main.py
lines 1616, 1619, 1622). -/
def flatRR (cfg : Cfg) (i : ℕ) : String := (cfg.paths[i % cfg.paths.length]?).getD ""

/-- Source selection for one loop iteration (main.py lines 1604-1623):
in timeline mode, the folder chosen by `getFolderForTime` supplies the
next video of its round-robin cycle when it has a group; otherwise - and
in non-timeline mode - the flat round-robin over all sources by
`segment_idx`.  Returns the chosen path and the updated per-folder cycle
counters. -/
def selectSource (cfg : Cfg) (s : St) : String × (String → ℕ) :=
  if useTimeline cfg then
    match getFolderForTime cfg s.currentTime with
    | some f =>
      match (videosByFolder cfg).lookup f with
      | some avail =>
        if avail.isEmpty then (flatRR cfg s.segmentIdx, s.folderIdx)
        else ((avail[s.folderIdx f % avail.length]?).getD "",
              Function.update s.folderIdx f (s.folderIdx f + 1))
      | none => (flatRR cfg s.segmentIdx, s.folderIdx)
    | none => (flatRR cfg s.segmentIdx, s.folderIdx)
  else (flatRR cfg s.segmentIdx, s.folderIdx)

/-- Result of one loop iteration: continue looping, or break out with an
exit reason. -/
inductive StepRes where
  | cont (s : St) : StepRes
  | brk (s : St) (r : ExitReason) : StepRes

/-- The state carried by a step result. -/
def StepRes.state : StepRes → St
  | .cont s => s
  | .brk s _ => s

/-- One iteration of the while-loop body (main.py lines 1603-1680): select
a source, wrap its playhead to 0 when fewer than `clip_duration` seconds
remain (lines 1631-1634), then cut.  On success append to the concat list,
advance the playhead, the elapsed time and `segment_idx`, and break when
`segment_idx` exceeds 1000 (line 1679).  On an undersized output, reset
the playhead and continue WITHOUT touching `segment_idx` (lines
1665-1668).  On `CalledProcessError`, reset the playhead, consume a
`segment_idx`, and break when it reaches `len(paths) * 10` (lines
1670-1677). -/
def step (cfg : Cfg) (s : St) : StepRes :=
  let sel := selectSource cfg s
  let path := sel.1
  let vd := cfg.durations path
  let pos₀ := s.positions path
  let clip := cfg.clipOf s.iter
  let pos := if vd < pos₀ + clip then 0 else pos₀
  match cfg.outcomeOf s.iter with
  | .success =>
    let s₁ : St :=
      { positions := Function.update s.positions path (pos + clip)
        currentTime := s.currentTime + clip
        segmentIdx := s.segmentIdx + 1
        segments := s.segments ++ [⟨s.segmentIdx, clip, path, pos⟩]
        failCount := s.failCount
        folderIdx := sel.2
        iter := s.iter + 1 }
    if 1000 < s₁.segmentIdx then .brk s₁ .absCeiling else .cont s₁
  | .smallFile =>
    .cont { s with positions := Function.update s.positions path 0,
                   folderIdx := sel.2, iter := s.iter + 1 }
  | .procError =>
    let s₁ : St :=
      { s with positions := Function.update s.positions path 0,
               segmentIdx := s.segmentIdx + 1,
               failCount := s.failCount + 1,
               folderIdx := sel.2, iter := s.iter + 1 }
    if cfg.paths.length * 10 ≤ s₁.segmentIdx then .brk s₁ .procCeiling else .cont s₁

/-- The while-loop of `compile_videos` (main.py line 1603), fuel-indexed:
the loop condition `current_time < target_duration` is tested before each
iteration; `fuelOut` is reported only when the loop is still running after
`fuel` iterations. -/
def run (cfg : Cfg) : ℕ → St → St × ExitReason
  | 0, s => if s.currentTime < cfg.target then (s, .fuelOut) else (s, .targetReached)
  | n + 1, s =>
    if s.currentTime < cfg.target then
      match step cfg s with
      | .cont s₁ => run cfg n s₁
      | .brk s₁ r => (s₁, r)
    else (s, .targetReached)

/-- The state before the first iteration (main.py lines 1567-1600): all
playheads 0, nothing produced, all cycle counters 0. -/
def initSt : St :=
  { positions := fun _ => 0, currentTime := 0, segmentIdx := 0, segments := [],
    failCount := 0, folderIdx := fun _ => 0, iter := 0 }

/-- Total clip duration of the produced segments. -/
def segTotal (l : List SegRec) : ℚ := (l.map SegRec.dur).sum

/-- The post-loop failure check (main.py lines 1682-1683): the compile
raises `Failed to create any video segments` iff `segment_idx == 0`. -/
def raisesNoSegments (s : St) : Bool := s.segmentIdx == 0

/-- Master state invariant of the compile loop: elapsed time equals the
produced total, `segment_idx` counts successes plus process-error
failures, recorded sequence indices stay below `segment_idx` and strictly
increase, and while no process-error failure has occurred they are exactly
`0, 1, ..., len-1`. -/
structure Inv (s : St) : Prop where
  time_eq : s.currentTime = segTotal s.segments
  idx_eq : s.segmentIdx = s.segments.length + s.failCount
  idx_lt : ∀ i ∈ s.segments.map SegRec.idx, i < s.segmentIdx
  mono : (s.segments.map SegRec.idx).Pairwise (· < ·)
  contig : s.failCount = 0 → s.segments.map SegRec.idx = List.range s.segments.length

/-- An all-success scenario: one 10-second source, 4-second target,
2-second clips, every cut succeeding. -/
def cfgOk : Cfg :=
  { paths := ["a"], target := 4, timelines := [], pathFolder := none,
    durations := fun _ => 10, clipOf := fun _ => 2, outcomeOf := fun _ => .success }

/-- An all-undersized-output scenario: every cut exits 0 but leaves a file
at or below the 10000-byte threshold. -/
def cfgSmall : Cfg :=
  { paths := ["a"], target := 1, timelines := [], pathFolder := none,
    durations := fun _ => 10, clipOf := fun _ => 2, outcomeOf := fun _ => .smallFile }

/-- An all-process-error scenario: every cut raises `CalledProcessError`. -/
def cfgPE : Cfg :=
  { paths := ["a"], target := 1, timelines := [], pathFolder := none,
    durations := fun _ => 10, clipOf := fun _ => 2, outcomeOf := fun _ => .procError }

/-- One process-error failure (iteration 1) between successes. -/
def cfgMix : Cfg :=
  { paths := ["a", "b"], target := 2, timelines := [], pathFolder := none,
    durations := fun _ => 10, clipOf := fun _ => 2,
    outcomeOf := fun i => if i = 0 then .procError else .success }

/-- A failure at iteration 1 of an otherwise successful three-segment-plus
run, target 6 seconds. -/
def cfgSkip : Cfg :=
  { paths := ["a"], target := 6, timelines := [], pathFolder := none,
    durations := fun _ => 100, clipOf := fun _ => 2,
    outcomeOf := fun i => if i = 1 then .procError else .success }

/-- Timeline mode with two one-video folders and a single window far in
the future, so no window ever matches the elapsed time. -/
def cfgTL : Cfg :=
  { paths := ["a", "b"], target := 10,
    timelines := [("f2", [(100, 200)])],
    pathFolder := some [("a", "f1"), ("b", "f2")],
    durations := fun _ => 100, clipOf := fun _ => 2, outcomeOf := fun _ => .success }

/-- The punctuation set of `strip(...)` in `count_syllables` and the
word-entry text (main.py lines 1747 and 1777). -/
def isPunctChar (c : Char) : Bool :=
  c == '.' || c == ',' || c == '!' || c == '?' || c == ';' || c == ':'

/-- Python `str.strip` with the punctuation set: remove set members from
both ends. -/
def stripPunct (s : List Char) : List Char :=
  ((s.dropWhile isPunctChar).reverse.dropWhile isPunctChar).reverse

/-- The vowel set `aeiouy` of the syllable counter (main.py line 1748). -/
def isVowelChar (c : Char) : Bool :=
  c == 'a' || c == 'e' || c == 'i' || c == 'o' || c == 'u' || c == 'y'

/-- The vowel-group scan (main.py lines 1749-1755): count characters that
are vowels not preceded by a vowel. -/
def countGroups : List Char → Bool → ℕ
  | [], _ => 0
  | c :: cs, prev =>
    (if isVowelChar c && !prev then 1 else 0) + countGroups cs (isVowelChar c)

/-- `count_syllables` (main.py lines 1746-1756): lowercase, strip
punctuation, count vowel groups, floor the result at 1. -/
def countSyllables (w : String) : ℕ :=
  max 1 (countGroups (stripPunct (lowerString w).data) false)

/-- The pause bonus added to a word's allocated time (main.py lines
1771-1774): 0.3 s after sentence-ending punctuation, 0.15 s after clause
punctuation, judged on the word's original final character. -/
def pauseBonus (w : String) : ℚ :=
  match w.data.getLast? with
  | some c =>
    if c == '.' || c == '!' || c == '?' then 3/10
    else if c == ',' || c == ';' || c == ':' then 3/20
    else 0
  | none => 0

/-- A word's pre-scaling duration (main.py lines 1766-1774):
`(syllables / total_syllables) * duration` plus the pause bonus. -/
def wordDuration (total : ℕ) (duration : ℚ) (w : String) : ℚ :=
  (countSyllables w : ℚ) / (total : ℚ) * duration + pauseBonus w

/-- One caption timing entry: the punctuation-stripped display word with
its start and end timestamps (the end field is named `stop`; `end` is
reserved in Lean). -/
structure WordEntry where
  word : String
  start : ℚ
  stop : ℚ
deriving DecidableEq

/-- The accumulation loop of `estimate_word_timing` (main.py lines
1764-1781): each word occupies `current_time` up to
`current_time + word_duration`. -/
def buildEntries (t : ℚ) : List (String × ℚ) → List WordEntry
  | [] => []
  | (w, d) :: rest => ⟨w, t, t + d⟩ :: buildEntries (t + d) rest

/-- `estimate_word_timing` (main.py lines 1738-1790), modelled from the
split word list on (`text.split()` precedes it): allocate per-word
durations by syllable share plus pause bonus, lay them out cumulatively,
then - unless nothing was produced - rescale every timestamp by
`duration / current_time` so the last end time lands exactly on
`duration`. -/
def estimate_word_timing (words : List String) (duration : ℚ) : List WordEntry :=
  let total := (words.map countSyllables).sum
  let pairs := words.map fun w => (String.mk (stripPunct w.data), wordDuration total duration w)
  let raw := buildEntries 0 pairs
  let ct := (pairs.map Prod.snd).sum
  if raw.isEmpty then []
  else raw.map fun e => ⟨e.word, e.start * (duration / ct), e.stop * (duration / ct)⟩

/-! ## Theorems -/

/-- Elements of the dedup output were each tested against the seen set in
force at their insertion. -/
theorem dedupScenesAux_not_dup_of_seen :
    ∀ (l seen : List String) (x : String), x ∈ dedupScenesAux l seen →
      ∀ s ∈ seen, isDupScene x s = false := by
  intro l
  induction l with
  | nil => intro seen x hx; simp [dedupScenesAux] at hx
  | cons y ys ih =>
    intro seen x hx s hs
    rw [dedupScenesAux] at hx
    by_cases hany : seen.any (fun s => isDupScene y s)
    · rw [if_pos hany] at hx
      exact ih seen x hx s hs
    · rw [if_neg hany] at hx
      rcases List.mem_cons.mp hx with rfl | hmem
      · have := (List.any_eq_false.mp (by simpa using hany)) s hs
        simpa using this
      · exact ih (y :: seen) _ hmem s (List.mem_cons_of_mem _ hs)

/-- The dedup output never contains a later id that the code's
(asymmetric) duplicate test would flag against an earlier one. -/
theorem dedupScenesAux_pairwise (l : List String) :
    ∀ seen, (dedupScenesAux l seen).Pairwise (fun a b => isDupScene b a = false) := by
  induction l with
  | nil => intro seen; simp [dedupScenesAux]
  | cons y ys ih =>
    intro seen
    rw [dedupScenesAux]
    by_cases hany : seen.any (fun s => isDupScene y s)
    · rw [if_pos hany]; exact ih seen
    · rw [if_neg hany]
      refine List.Pairwise.cons ?_ (ih (y :: seen))
      intro b hb
      exact dedupScenesAux_not_dup_of_seen ys (y :: seen) b hb y (List.mem_cons_self y seen)

/-- C5 amended: the duplicate filter keeps first occurrences and drops a
later file exactly when its scene id equals a kept one, or when its stem
exceeds 10 characters and shares its first 10 characters with a kept one;
consequently no two returned ids are equal, and no later returned id
longer than 10 characters shares its first-10-character prefix with an
earlier returned id (first-10 collisions where the later stem has at most
10 characters survive, so the claimed symmetric pairwise rule fails). -/
theorem C5_amended (stems : List String) :
    (dedupScenes stems).Pairwise
      (fun a b => a ≠ b ∧ ¬(10 < b.length ∧ b.take 10 = a.take 10)) := by
  refine (dedupScenesAux_pairwise _ []).imp ?_
  intro a b h
  simp only [isDupScene, Bool.or_eq_false_iff, Bool.and_eq_false_iff, beq_eq_false_iff_ne,
    decide_eq_false_iff_not, not_lt] at h
  refine ⟨fun e => h.1 e.symm, fun hp => ?_⟩
  rcases h.2 with h2 | h2
  · exact absurd hp.1 (not_lt.mpr h2)
  · exact h2 hp.2

/-- Shape of `List.intercalate` on a list of at least two components. -/
theorem intercalate_two {α : Type} (s a b : List α) (t : List (List α)) :
    List.intercalate s (a :: b :: t) = a ++ (s ++ List.intercalate s (b :: t)) := rfl

/-- Every component of a path is a contiguous substring of the joined
path string. -/
theorem infix_of_mem_intercalate {α : Type} (s : List α) {a : List α} :
    ∀ {l : List (List α)}, a ∈ l → a <:+: List.intercalate s l := by
  intro l hl
  induction l with
  | nil => simp at hl
  | cons b t ih =>
    rcases List.mem_cons.mp hl with rfl | hmem
    · cases t with
      | nil => simp [List.intercalate]
      | cons c u =>
        rw [intercalate_two]
        exact ⟨[], s ++ List.intercalate s (c :: u), by simp⟩
    · cases t with
      | nil => simp at hmem
      | cons c u =>
        rw [intercalate_two]
        exact (ih hmem).trans ⟨b ++ s, [], by simp⟩

/-- A Strategy 2 match at a parent directory forces the Strategy 1 match
on the full path string. -/
theorem stratTwo_implies_stratOne (folderLower : List Char) (v : CPath)
    {n : List Char} (hn : n ∈ parentNames v)
    (hinf : folderLower <:+: lowerChars n) :
    folderLower <:+: lowerChars (pathString v) := by
  have hnv : n ∈ v := List.dropLast_subset v hn
  have h2 : n <:+: pathString v := infix_of_mem_intercalate _ hnv
  exact hinf.trans (h2.map Char.toLower)

/-- C10: the parent-directory matching strategy is subsumed by the
full-path substring strategy: a category name contained in a parent
directory's name is contained in the lowercased full path string, so
Strategy 2 can never add a match when Strategy 1 found none, and the
matching phase equals the variant with Strategy 2 removed. -/
theorem C10_strategy_two_redundant (folderLower : List Char)
    (folderWords : List (List Char)) (videos : List CPath) :
    (∀ v ∈ videos, ∀ n ∈ parentNames v, folderLower <:+: lowerChars n →
      folderLower <:+: lowerChars (pathString v)) ∧
    matchingVideos folderLower folderWords videos =
      matchingVideosNoStratTwo folderLower folderWords videos := by
  refine ⟨fun v _ n hn hinf => stratTwo_implies_stratOne folderLower v hn hinf, ?_⟩
  unfold matchingVideos matchingVideosNoStratTwo
  by_cases h1 : (strategyOne folderLower videos).isEmpty
  · have hall : ∀ v ∈ videos, ¬(decide (folderLower <:+: lowerChars (pathString v)) = true) := by
      rw [List.isEmpty_iff] at h1
      exact fun v hv => by
        intro hp
        have := List.filter_eq_nil_iff.mp h1 v hv
        exact this hp
    have h2 : strategyTwo folderLower videos = [] := by
      apply List.filter_eq_nil_iff.mpr
      intro v hv hp
      simp only [List.any_eq_true, Bool.and_eq_true, Bool.not_eq_true', decide_eq_true_eq] at hp
      obtain ⟨n, hn, _, hinf⟩ := hp
      exact hall v hv (by simpa using stratTwo_implies_stratOne folderLower v hn hinf)
    simp [h1, h2]
  · simp [h1]

/-- C7: the claim states the video probe's failure default is `10.0`; the
code (main.py lines 786 and 791) returns `5.0` on both failure arms. -/
theorem C7_counterexample :
    get_video_duration .noMatch = 5 ∧ (5 : ℚ) ≠ 10 := by
  constructor
  · rfl
  · norm_num

/-- C7 amended: the video probe is total and returns the fixed default
`5.0` (not `10.0`) on parse failure and on tool-invocation failure; the
audio probe returns `10.0` on parse failure, which lies in the
10.0 - 30.0 second range. -/
theorem C7_amended :
    get_video_duration .noMatch = 5 ∧ get_video_duration .toolError = 5 ∧
    get_audio_duration none = 10 ∧
    (10 : ℚ) ≤ get_audio_duration none ∧ get_audio_duration none ≤ 30 := by
  refine ⟨rfl, rfl, rfl, ?_, ?_⟩ <;> norm_num [get_audio_duration]

/-- C6: the claim's clips-needed estimate `ceil(target / 2.5)` disagrees
with the code's `int(target / 2.5) + 1` at exact multiples of 2.5
(target = 5 gives 3, not 2), and for `target > 15` the code REPLACES the
estimate by `max(3, min(5, pool))` instead of capping it at 5: at
target = 20 with pool 10 the code selects 5 while the claim's capped
formula gives 4. -/
theorem C6_counterexample :
    clipsNeeded 5 = 3 ∧ ⌈(5:ℚ) / avgClipDuration⌉₊ = 2 ∧ (3:ℕ) ≠ 2 ∧
    videosNeeded 20 10 = 5 ∧
    min (max 3 (min (⌈(20:ℚ) / avgClipDuration⌉₊ / 2) 10)) 5 = 4 ∧ (5:ℕ) ≠ 4 := by
  refine ⟨?_, ?_, by norm_num, ?_, ?_, by norm_num⟩
  · have : ((5:ℚ) / avgClipDuration) = 2 := by norm_num [avgClipDuration]
    simp [clipsNeeded, this]
  · have : ((5:ℚ) / avgClipDuration) = 2 := by norm_num [avgClipDuration]
    simp [this]
  · norm_num [videosNeeded]
  · have : ((20:ℚ) / avgClipDuration) = 8 := by norm_num [avgClipDuration]
    simp [this]

/-- C6 amended: with a positive target duration, the selector computes
`clips_needed = floor(target/2.5) + 1`; for targets up to 15 seconds it
selects `max(3, min(clips_needed // 2, pool))` videos, and for targets over
15 seconds it selects `max(3, min(5, pool))` (replacing the estimate, not
capping it); `clips_needed` coincides with `ceil(target/2.5)` exactly when
the target is not a multiple of 2.5 seconds. -/
theorem C6_amended (target : ℚ) (pool : ℕ) (hpos : 0 < target) :
    (target ≤ 15 → videosNeeded target pool = max 3 (min (clipsNeeded target / 2) pool)) ∧
    (15 < target → videosNeeded target pool = max 3 (min 5 pool)) ∧
    (clipsNeeded target = ⌈target / avgClipDuration⌉₊ ↔
      ¬ ∃ n : ℕ, target = avgClipDuration * n) := by
  have hx : 0 < target / avgClipDuration := by
    apply div_pos hpos; norm_num [avgClipDuration]
  refine ⟨fun h => by simp [videosNeeded, not_lt.mpr h], fun h => by simp [videosNeeded, h], ?_⟩
  set x := target / avgClipDuration with hxdef
  have hnat : (∃ n : ℕ, target = avgClipDuration * n) ↔ (∃ n : ℕ, x = n) := by
    constructor
    · rintro ⟨n, rfl⟩
      refine ⟨n, ?_⟩
      rw [hxdef, avgClipDuration]
      field_simp
    · rintro ⟨n, hn⟩
      refine ⟨n, ?_⟩
      have hta : target = avgClipDuration * x := by
        rw [hxdef, avgClipDuration]; field_simp; ring
      rw [hta, hn]
  rw [hnat]
  constructor
  · intro hceil hex
    obtain ⟨n, hn⟩ := hex
    have hfl : ⌊x⌋₊ = n := by rw [hn]; exact Nat.floor_natCast n
    have hcl : ⌈x⌉₊ = n := by rw [hn]; exact Nat.ceil_natCast n
    rw [clipsNeeded, ← hxdef, hfl, hcl] at hceil
    omega
  · intro hnot
    have hne : x ≠ (⌊x⌋₊ : ℚ) := fun h => hnot ⟨⌊x⌋₊, h⟩
    have hlt : (⌊x⌋₊ : ℚ) < x := lt_of_le_of_ne (Nat.floor_le hx.le) (Ne.symm hne)
    have h1 : ⌊x⌋₊ < ⌈x⌉₊ := Nat.lt_ceil.mpr hlt
    have h2 : ⌈x⌉₊ ≤ ⌊x⌋₊ + 1 := by
      apply Nat.ceil_le.mpr
      push_cast
      exact (Nat.lt_floor_add_one x).le
    rw [clipsNeeded, ← hxdef]
    omega

/-- Witness for `C6_amended` at target 7 seconds, pool size 4. -/
theorem C6_amended_witness :
    ((7:ℚ) ≤ 15 → videosNeeded 7 4 = max 3 (min (clipsNeeded 7 / 2) 4)) ∧
    (15 < (7:ℚ) → videosNeeded 7 4 = max 3 (min 5 4)) ∧
    (clipsNeeded 7 = ⌈(7:ℚ) / avgClipDuration⌉₊ ↔
      ¬ ∃ n : ℕ, (7:ℚ) = avgClipDuration * n) :=
  C6_amended 7 4 (by norm_num)

/-- C5: the duplicate-scene relation of the claim (equal ids, or equal
first-10-character prefixes) is not applied symmetrically by the code: the
prefix test fires only when the LATER candidate's stem is longer than 10
characters (main.py line 888), so the pool
`["abcdefghijk", "abcdefghij"]` keeps both stems even though their first
10 characters coincide (and in the reverse input order the second one
would have been dropped). -/
theorem C5_counterexample :
    dedupScenes ["abcdefghijk", "abcdefghij"] = ["abcdefghijk", "abcdefghij"] ∧
    "abcdefghijk".take 10 = "abcdefghij".take 10 ∧
    ("abcdefghijk" : String) ≠ "abcdefghij" ∧
    dedupScenes ["abcdefghij", "abcdefghijk"] = ["abcdefghij"] := by
  refine ⟨?_, ?_, ?_, ?_⟩ <;> decide

/-- The initial state satisfies the master invariant. -/
theorem initSt_inv : Inv initSt := by
  constructor <;> simp [initSt, segTotal]

/-- Field characterization of a successful iteration. -/
theorem step_fields_success {cfg : Cfg} {s : St} (h : cfg.outcomeOf s.iter = .success) :
    (step cfg s).state.currentTime = s.currentTime + cfg.clipOf s.iter ∧
    (step cfg s).state.segmentIdx = s.segmentIdx + 1 ∧
    (∃ p q, (step cfg s).state.segments =
      s.segments ++ [⟨s.segmentIdx, cfg.clipOf s.iter, p, q⟩]) ∧
    (step cfg s).state.failCount = s.failCount := by
  unfold step
  simp only [h]
  split <;> exact ⟨rfl, rfl, ⟨_, _, rfl⟩, rfl⟩

/-- An undersized-output iteration continues the loop with the produced
work untouched: only the playhead, cycle counters and iteration counter
move. -/
theorem step_cont_smallFile {cfg : Cfg} {s : St} (h : cfg.outcomeOf s.iter = .smallFile) :
    ∃ s₁, step cfg s = .cont s₁ ∧ s₁.currentTime = s.currentTime ∧
      s₁.segmentIdx = s.segmentIdx ∧ s₁.segments = s.segments ∧
      s₁.failCount = s.failCount := by
  unfold step
  simp only [h]
  exact ⟨_, rfl, rfl, rfl, rfl, rfl⟩

/-- Field characterization of a process-error iteration. -/
theorem step_fields_procError {cfg : Cfg} {s : St} (h : cfg.outcomeOf s.iter = .procError) :
    (step cfg s).state.currentTime = s.currentTime ∧
    (step cfg s).state.segmentIdx = s.segmentIdx + 1 ∧
    (step cfg s).state.segments = s.segments ∧
    (step cfg s).state.failCount = s.failCount + 1 := by
  unfold step
  simp only [h]
  split <;> exact ⟨rfl, rfl, rfl, rfl⟩

/-- The loop breaks only through one of the two ceilings; the condition
exit is taken at the loop head, never from inside the body. -/
theorem step_brk_reason {cfg : Cfg} {s s₁ : St} {r : ExitReason}
    (h : step cfg s = .brk s₁ r) : r = .absCeiling ∨ r = .procCeiling := by
  unfold step at h
  cases houtcome : cfg.outcomeOf s.iter <;> simp only [houtcome] at h
  · split at h
    · exact Or.inl (by cases h; rfl)
    · exact StepRes.noConfusion h
  · exact StepRes.noConfusion h
  · split at h
    · exact Or.inr (by cases h; rfl)
    · exact StepRes.noConfusion h

/-- The master invariant is preserved by every iteration. -/
theorem step_inv {cfg : Cfg} {s : St} (h : Inv s) : Inv (step cfg s).state := by
  cases houtcome : cfg.outcomeOf s.iter
  case success =>
    obtain ⟨hct, hidx, ⟨p, q, hsegs⟩, hfail⟩ := step_fields_success houtcome
    constructor
    · rw [hct, hsegs, h.time_eq]
      simp [segTotal]
    · rw [hidx, hsegs, hfail, h.idx_eq]
      simp
      omega
    · intro i hi
      rw [hsegs] at hi
      rw [hidx]
      simp only [List.map_append, List.map_cons, List.map_nil, List.mem_append,
        List.mem_singleton] at hi
      rcases hi with hi | rfl
      · exact Nat.lt_succ_of_lt (h.idx_lt i hi)
      · exact Nat.lt_succ_self _
    · rw [hsegs]
      simp only [List.map_append, List.map_cons, List.map_nil]
      rw [List.pairwise_append]
      refine ⟨h.mono, by simp, ?_⟩
      intro a ha b hb
      simp only [List.mem_cons, List.not_mem_nil, or_false] at hb
      subst hb
      exact h.idx_lt a ha
    · intro h0
      rw [hfail] at h0
      rw [hsegs]
      simp only [List.map_append, List.map_cons, List.map_nil, List.length_append,
        List.length_cons, List.length_nil]
      have hlen : s.segmentIdx = s.segments.length := by
        have := h.idx_eq
        omega
      rw [h.contig h0, hlen, List.range_succ]
  case smallFile =>
    obtain ⟨s₁, hstep, hct, hidx, hsegs, hfail⟩ := step_cont_smallFile houtcome
    rw [hstep]
    exact ⟨by rw [StepRes.state, hct, hsegs, h.time_eq],
      by rw [StepRes.state, hidx, hsegs, hfail, h.idx_eq],
      by rw [StepRes.state, hidx, hsegs]; exact h.idx_lt,
      by rw [StepRes.state, hsegs]; exact h.mono,
      by rw [StepRes.state, hfail, hsegs]; exact h.contig⟩
  case procError =>
    obtain ⟨hct, hidx, hsegs, hfail⟩ := step_fields_procError houtcome
    constructor
    · rw [hct, hsegs]; exact h.time_eq
    · rw [hidx, hsegs, hfail, h.idx_eq]; omega
    · intro i hi
      rw [hsegs] at hi
      rw [hidx]
      exact Nat.lt_succ_of_lt (h.idx_lt i hi)
    · rw [hsegs]; exact h.mono
    · intro h0
      rw [hfail] at h0
      omega

/-- Running any number of iterations preserves the master invariant. -/
theorem run_inv (cfg : Cfg) : ∀ (n : ℕ) (s : St), Inv s → Inv (run cfg n s).1 := by
  intro n
  induction n with
  | zero =>
    intro s hs
    simp only [run]
    split <;> exact hs
  | succ n ih =>
    intro s hs
    simp only [run]
    split
    · cases hstep : step cfg s with
      | cont s₁ =>
        have hinv := @step_inv cfg s hs
        rw [hstep] at hinv
        exact ih s₁ hinv
      | brk s₁ r =>
        have hinv := @step_inv cfg s hs
        rw [hstep] at hinv
        exact hinv
    · exact hs

/-- When the loop reports that the while-condition went false, the elapsed
time has indeed met the target. -/
theorem run_target_le (cfg : Cfg) :
    ∀ (n : ℕ) (s : St), (run cfg n s).2 = .targetReached →
      cfg.target ≤ (run cfg n s).1.currentTime := by
  intro n
  induction n with
  | zero =>
    intro s h
    by_cases hc : s.currentTime < cfg.target
    · simp only [run, if_pos hc] at h
      exact ExitReason.noConfusion h
    · simp only [run, if_neg hc]
      exact le_of_not_lt hc
  | succ n ih =>
    intro s h
    by_cases hc : s.currentTime < cfg.target
    · simp only [run, if_pos hc] at h ⊢
      revert h
      cases hstep : step cfg s with
      | cont s₁ => exact fun h => ih s₁ h
      | brk s₁ r =>
        intro h
        rcases step_brk_reason hstep with rfl | rfl <;> exact ExitReason.noConfusion h
    · simp only [run, if_neg hc]
      exact le_of_not_lt hc

/-- C1: whenever the compile loop exits because the elapsed time reached
the target (no ceiling break, no fuel exhaustion), the total clip duration
of the successfully produced segments is at least the target duration. -/
theorem C1_coverage (cfg : Cfg) (n : ℕ)
    (h : (run cfg n initSt).2 = .targetReached) :
    cfg.target ≤ segTotal (run cfg n initSt).1.segments := by
  have hI := run_inv cfg n initSt initSt_inv
  have hle := run_target_le cfg n initSt h
  rwa [hI.time_eq] at hle

/-- Witness for `C1_coverage`: the all-success scenario reaches its
4-second target with two 2-second clips. -/
theorem C1_coverage_witness :
    (run cfgOk 5 initSt).2 = .targetReached ∧
    cfgOk.target ≤ segTotal (run cfgOk 5 initSt).1.segments := by
  have h : (run cfgOk 5 initSt).2 = .targetReached := by
    norm_num +decide [run, step, selectSource, useTimeline, getFolderForTime, flatRR,
      videosByFolder, cfgOk, initSt, Function.update_apply]
  exact ⟨h, C1_coverage cfgOk 5 h⟩

/-- With every cut leaving an undersized output file, an iteration touches
nothing the loop condition or the ceilings inspect, so the loop never
finishes, whatever the fuel. -/
theorem run_smallFile_fuelOut :
    ∀ (n : ℕ) (s : St), s.currentTime < cfgSmall.target →
      (run cfgSmall n s).2 = .fuelOut := by
  intro n
  induction n with
  | zero => intro s h; simp only [run, if_pos h]
  | succ n ih =>
    intro s h
    obtain ⟨s₁, hstep, hct, _, _, _⟩ :=
      @step_cont_smallFile cfgSmall s rfl
    simp only [run, if_pos h, hstep]
    exact ih s₁ (by rwa [hct])

/-- C2: the claim (and spec P6) promises termination within the iteration
ceiling for every failure mode, but the undersized-output failure arm
(main.py lines 1665-1668) does `continue` without incrementing
`segment_idx` and without any ceiling test, so when every cut exits 0 with
a file at or below 10000 bytes the while-loop never terminates: for every
fuel bound the modelled loop is still running.  Code bug: the spec's
intent (a hard iteration ceiling guaranteeing termination even if every
source is broken) is clear, and the code only applies the ceiling on the
`CalledProcessError` arm. -/
theorem C2_small_output_diverges (n : ℕ) :
    (run cfgSmall n initSt).2 = .fuelOut :=
  run_smallFile_fuelOut n initSt (by norm_num [initSt, cfgSmall])

set_option maxHeartbeats 2000000 in
/-- C3: `segment_idx` also counts process-error cut failures (main.py line
1674), so the post-loop `segment_idx == 0` check is not "zero segments
produced": a run whose ten cut attempts all raise `CalledProcessError`
produces zero segments yet leaves `segment_idx = 10`, and the
`Failed to create any video segments` error is not raised. -/
theorem C3_counterexample :
    (run cfgPE 15 initSt).2 = .procCeiling ∧
    (run cfgPE 15 initSt).1.segments = [] ∧
    raisesNoSegments (run cfgPE 15 initSt).1 = false := by
  norm_num +decide [run, step, selectSource, useTimeline, getFolderForTime, flatRR,
    videosByFolder, cfgPE, initSt, Function.update_apply, raisesNoSegments]

/-- C3 amended: after the loop exits (not by fuel), the no-segments error
is raised iff `segment_idx = 0`, i.e. iff no segment was produced AND no
cut attempt failed with a process error; in particular one successful
segment always suppresses the compile failure, so a single bad source
among several never fails the job through this check. -/
theorem C3_amended (cfg : Cfg) (n : ℕ)
    (hexit : (run cfg n initSt).2 ≠ .fuelOut) :
    (raisesNoSegments (run cfg n initSt).1 = true ↔
      (run cfg n initSt).1.segments = [] ∧ (run cfg n initSt).1.failCount = 0) ∧
    ((run cfg n initSt).1.segments ≠ [] →
      raisesNoSegments (run cfg n initSt).1 = false) := by
  have hidx := (run_inv cfg n initSt initSt_inv).idx_eq
  have hmain : raisesNoSegments (run cfg n initSt).1 = true ↔
      (run cfg n initSt).1.segments = [] ∧ (run cfg n initSt).1.failCount = 0 := by
    simp only [raisesNoSegments, beq_iff_eq, hidx]
    constructor
    · intro h0
      have h1 : (run cfg n initSt).1.segments.length = 0 := by omega
      exact ⟨List.length_eq_zero.mp h1, by omega⟩
    · rintro ⟨hseg, hfail⟩
      simp [hseg, hfail]
  refine ⟨hmain, fun hne => ?_⟩
  cases hraise : raisesNoSegments (run cfg n initSt).1
  · rfl
  · exact absurd (hmain.mp hraise).1 hne

/-- Witness for `C3_amended`: a run with one process-error failure at
iteration 0 and one success afterwards. -/
theorem C3_amended_witness :
    (run cfgMix 5 initSt).2 ≠ .fuelOut ∧
    ((raisesNoSegments (run cfgMix 5 initSt).1 = true ↔
      (run cfgMix 5 initSt).1.segments = [] ∧ (run cfgMix 5 initSt).1.failCount = 0) ∧
     ((run cfgMix 5 initSt).1.segments ≠ [] →
       raisesNoSegments (run cfgMix 5 initSt).1 = false)) := by
  have h : (run cfgMix 5 initSt).2 = .targetReached := by
    norm_num +decide [run, step, selectSource, useTimeline, getFolderForTime, flatRR,
      videosByFolder, cfgMix, initSt, Function.update_apply]
  have hne : (run cfgMix 5 initSt).2 ≠ .fuelOut := by
    rw [h]; exact fun hh => ExitReason.noConfusion hh
  exact ⟨hne, C3_amended cfgMix 5 hne⟩

set_option maxHeartbeats 4000000 in
/-- C4: with a timeline supplied but no window containing the elapsed
time, `get_folder_for_time` returns the first folder key (main.py line
1597) rather than a no-match marker, so the compiler keeps drawing from
the first folder's pool: the run yields "a" five times, while the claimed
flat round-robin over all sources in original order would alternate
"a", "b". -/
theorem C4_counterexample :
    (run cfgTL 5 initSt).1.segments.map SegRec.src = ["a", "a", "a", "a", "a"] ∧
    (List.range 5).map (flatRR cfgTL) = ["a", "b", "a", "b", "a"] ∧
    (["a", "a", "a", "a", "a"] : List String) ≠ ["a", "b", "a", "b", "a"] := by
  refine ⟨?_, ?_, by decide⟩
  · norm_num +decide [run, step, selectSource, useTimeline, getFolderForTime, flatRR,
      videosByFolder, cfgTL, initSt, Function.update_apply, addToGroup, lookupD,
      List.lookup, List.find?]
  · norm_num +decide [flatRR, cfgTL, List.range_succ]

/-- C4 amended: in timeline mode, when no category window contains the
current elapsed time, the compiler selects from the round-robin cycle of
the FIRST folder of the videos-by-folder grouping; the flat round-robin
over all sources is reached only when the folder returned by
`get_folder_for_time` has no (or an empty) group. -/
theorem C4_amended (cfg : Cfg) (s : St) (f : String) (pool : List String)
    (hTL : useTimeline cfg = true)
    (hnomatch : ∀ fs ∈ cfg.timelines, ∀ se ∈ fs.2,
      ¬(se.1 ≤ s.currentTime ∧ s.currentTime < se.2))
    (hhead : (videosByFolder cfg).head? = some (f, pool))
    (hpool : pool.isEmpty = false) :
    getFolderForTime cfg s.currentTime = some f ∧
    (selectSource cfg s).1 = (pool[s.folderIdx f % pool.length]?).getD "" := by
  have hfind : cfg.timelines.find? (fun fs =>
      fs.2.any (fun se => decide (se.1 ≤ s.currentTime) &&
        decide (s.currentTime < se.2))) = none := by
    apply List.find?_eq_none.mpr
    intro fs hfs
    simp only [List.any_eq_true, Bool.and_eq_true, decide_eq_true_eq, not_exists]
    push_neg
    intro se hse h1
    have hn := hnomatch fs hfs se hse
    exact le_of_not_lt (fun h2 => hn ⟨h1, h2⟩)
  have hgff : getFolderForTime cfg s.currentTime = some f := by
    rw [getFolderForTime, if_pos hTL, hfind, hhead]
    rfl
  have hlook : (videosByFolder cfg).lookup f = some pool := by
    cases hvbf : videosByFolder cfg with
    | nil => rw [hvbf] at hhead; exact Option.noConfusion hhead
    | cons hd tl =>
      rw [hvbf] at hhead
      simp only [List.head?] at hhead
      injection hhead with hh
      subst hh
      simp [List.lookup]
  refine ⟨hgff, ?_⟩
  rw [selectSource, if_pos hTL, hgff]
  simp only [hlook, hpool]
  rfl

/-- Witness for `C4_amended` on the concrete timeline scenario. -/
theorem C4_amended_witness :
    useTimeline cfgTL = true ∧
    (∀ fs ∈ cfgTL.timelines, ∀ se ∈ fs.2,
      ¬(se.1 ≤ initSt.currentTime ∧ initSt.currentTime < se.2)) ∧
    (videosByFolder cfgTL).head? = some ("f1", ["a"]) ∧
    (["a"] : List String).isEmpty = false ∧
    (getFolderForTime cfgTL initSt.currentTime = some "f1" ∧
     (selectSource cfgTL initSt).1 =
       ((["a"] : List String)[initSt.folderIdx "f1" % (["a"] : List String).length]?).getD "") := by
  have h1 : useTimeline cfgTL = true := rfl
  have h2 : ∀ fs ∈ cfgTL.timelines, ∀ se ∈ fs.2,
      ¬(se.1 ≤ initSt.currentTime ∧ initSt.currentTime < se.2) := by
    intro fs hfs se hse
    simp only [cfgTL, List.mem_singleton] at hfs
    subst hfs
    simp only [List.mem_singleton] at hse
    subst hse
    norm_num [initSt]
  have h3 : (videosByFolder cfgTL).head? = some ("f1", ["a"]) := by decide
  have h4 : (["a"] : List String).isEmpty = false := rfl
  exact ⟨h1, h2, h3, h4, C4_amended cfgTL initSt "f1" ["a"] h1 h2 h3 h4⟩

set_option maxHeartbeats 2000000 in
/-- C8: a process-error cut failure consumes a sequence index (main.py
line 1674), so a failure between successes leaves a gap: with the failure
at iteration 1, the produced segments carry indices 0, 2, 3 - not the
contiguous 0, 1, 2 the claim promises. -/
theorem C8_counterexample :
    (run cfgSkip 7 initSt).1.segments.map SegRec.idx = [0, 2, 3] ∧
    (run cfgSkip 7 initSt).1.segments.length = 3 ∧
    ([0, 2, 3] : List ℕ) ≠ List.range 3 := by
  refine ⟨?_, ?_, by decide⟩ <;>
    norm_num +decide [run, step, selectSource, useTimeline, getFolderForTime, flatRR,
      videosByFolder, cfgSkip, initSt, Function.update_apply]

/-- C8 amended: the recorded sequence indices strictly increase in every
run, and in every run in which no cut attempt failed with a process error
they are contiguous starting at 0 (undersized-output failures consume no
index); a process-error failure between successes consumes an index and
can leave a gap. -/
theorem C8_amended (cfg : Cfg) (n : ℕ) :
    ((run cfg n initSt).1.segments.map SegRec.idx).Pairwise (· < ·) ∧
    ((run cfg n initSt).1.failCount = 0 →
      (run cfg n initSt).1.segments.map SegRec.idx =
        List.range (run cfg n initSt).1.segments.length) :=
  ⟨(run_inv cfg n initSt initSt_inv).mono, (run_inv cfg n initSt initSt_inv).contig⟩

/-- Witness for `C8_amended`: the failure-free scenario has contiguous
indices. -/
theorem C8_amended_witness :
    (run cfgOk 5 initSt).1.failCount = 0 ∧
    ((run cfgOk 5 initSt).1.segments.map SegRec.idx).Pairwise (· < ·) ∧
    (run cfgOk 5 initSt).1.segments.map SegRec.idx =
      List.range (run cfgOk 5 initSt).1.segments.length := by
  have h0 : (run cfgOk 5 initSt).1.failCount = 0 := by
    norm_num +decide [run, step, selectSource, useTimeline, getFolderForTime, flatRR,
      videosByFolder, cfgOk, initSt, Function.update_apply]
  exact ⟨h0, (C8_amended cfgOk 5).1, (C8_amended cfgOk 5).2 h0⟩

/-- Unfolding equation of the accumulation loop on a cons cell. -/
theorem buildEntries_cons (t : ℚ) (w : String) (d : ℚ) (l : List (String × ℚ)) :
    buildEntries t ((w, d) :: l) = ⟨w, t, t + d⟩ :: buildEntries (t + d) l := rfl

/-- The loop emits one entry per word. -/
theorem buildEntries_length (t : ℚ) (l : List (String × ℚ)) :
    (buildEntries t l).length = l.length := by
  induction l generalizing t with
  | nil => rfl
  | cons p rest ih =>
    obtain ⟨w, d⟩ := p
    rw [buildEntries_cons]
    simp [ih]

/-- With non-negative word durations, every start time is at least the
running clock the loop began from. -/
theorem buildEntries_start_ge (t : ℚ) (l : List (String × ℚ))
    (h : ∀ d ∈ l.map Prod.snd, 0 ≤ d) :
    ∀ e ∈ buildEntries t l, t ≤ e.start := by
  induction l generalizing t with
  | nil => intro e he; simp [buildEntries] at he
  | cons p rest ih =>
    obtain ⟨w, d⟩ := p
    intro e he
    rw [buildEntries_cons] at he
    have hd : 0 ≤ d := h d (by simp)
    rcases List.mem_cons.mp he with rfl | hmem
    · exact le_refl t
    · have := ih (t + d) (fun x hx => h x (by simp [hx])) e hmem
      linarith

/-- With non-negative word durations, the start times are
non-decreasing. -/
theorem buildEntries_start_sorted (t : ℚ) (l : List (String × ℚ))
    (h : ∀ d ∈ l.map Prod.snd, 0 ≤ d) :
    ((buildEntries t l).map WordEntry.start).Sorted (· ≤ ·) := by
  induction l generalizing t with
  | nil => simp [buildEntries]
  | cons p rest ih =>
    obtain ⟨w, d⟩ := p
    rw [buildEntries_cons, List.map_cons]
    refine List.Pairwise.cons ?_ (ih (t + d) (fun x hx => h x (by simp [hx])))
    intro b hb
    obtain ⟨e, he, rfl⟩ := List.mem_map.mp hb
    have hd : 0 ≤ d := h d (by simp)
    have := buildEntries_start_ge (t + d) rest (fun x hx => h x (by simp [hx])) e he
    linarith

/-- The last end time emitted by the loop is the running clock plus the
total of the word durations. -/
theorem buildEntries_last_stop (t : ℚ) (l : List (String × ℚ)) (hne : l ≠ []) :
    ((buildEntries t l).map WordEntry.stop).getLast? =
      some (t + (l.map Prod.snd).sum) := by
  induction l generalizing t with
  | nil => contradiction
  | cons p rest ih =>
    obtain ⟨w, d⟩ := p
    cases rest with
    | nil => simp [buildEntries_cons, buildEntries]
    | cons q rest2 =>
      obtain ⟨w2, d2⟩ := q
      have ihq := ih (t + d) (by simp)
      rw [buildEntries_cons, List.map_cons, buildEntries_cons, List.map_cons,
        List.getLast?_cons_cons]
      rw [buildEntries_cons, List.map_cons] at ihq
      rw [ihq]
      simp only [List.map_cons, List.sum_cons]
      congr 1
      ring

/-- Every word counts at least one syllable. -/
theorem countSyllables_ge_one (w : String) : 1 ≤ countSyllables w :=
  le_max_left 1 _

/-- The pause bonus is never negative. -/
theorem pauseBonus_nonneg (w : String) : 0 ≤ pauseBonus w := by
  rw [pauseBonus]
  rcases w.data.getLast? with _ | c
  · exact le_refl 0
  · dsimp only
    split
    · norm_num
    · split
      · norm_num
      · exact le_refl 0

/-- A non-empty word list yields a positive syllable total. -/
theorem one_le_syllable_total {words : List String} (hw : words ≠ []) :
    1 ≤ (words.map countSyllables).sum := by
  cases words with
  | nil => contradiction
  | cons w ws =>
    simp only [List.map_cons, List.sum_cons]
    have h1 := countSyllables_ge_one w
    have h2 : 0 ≤ (ws.map countSyllables).sum := by positivity
    omega

/-- With a positive duration and positive syllable total, every word's
pre-scaling duration is positive. -/
theorem wordDuration_pos {total : ℕ} {duration : ℚ} (w : String)
    (hd : 0 < duration) (ht : 1 ≤ total) :
    0 < wordDuration total duration w := by
  rw [wordDuration]
  have h1 : 0 < (countSyllables w : ℚ) := by
    exact_mod_cast Nat.lt_of_lt_of_le Nat.zero_lt_one (countSyllables_ge_one w)
  have h2 : 0 < (total : ℚ) := by exact_mod_cast ht
  have h3 : 0 < (countSyllables w : ℚ) / (total : ℚ) * duration := by positivity
  have h4 := pauseBonus_nonneg w
  linarith

/-- C9: for every non-empty word list and positive duration,
`estimate_word_timing` returns one timing entry per word, with
non-negative and non-decreasing start times, and after the global rescale
the last word's end time equals exactly the given duration. -/
theorem C9_word_timing (words : List String) (duration : ℚ)
    (hd : 0 < duration) (hw : words ≠ []) :
    (estimate_word_timing words duration).length = words.length ∧
    (∀ e ∈ estimate_word_timing words duration, 0 ≤ e.start) ∧
    ((estimate_word_timing words duration).map WordEntry.start).Sorted (· ≤ ·) ∧
    ((estimate_word_timing words duration).map WordEntry.stop).getLast? = some duration := by
  rw [estimate_word_timing]
  set total := (words.map countSyllables).sum with htotal
  set pairs := words.map fun w =>
    (String.mk (stripPunct w.data), wordDuration total duration w) with hpairs
  set ct := (pairs.map Prod.snd).sum with hct
  have htot1 : 1 ≤ total := one_le_syllable_total hw
  have hsnd : pairs.map Prod.snd = words.map (wordDuration total duration) := by
    rw [hpairs, List.map_map]
    rfl
  have hpos : ∀ d ∈ pairs.map Prod.snd, 0 < d := by
    rw [hsnd]
    intro d hdm
    obtain ⟨w, _, rfl⟩ := List.mem_map.mp hdm
    exact wordDuration_pos w hd htot1
  have hnonneg : ∀ d ∈ pairs.map Prod.snd, 0 ≤ d := fun d hdm => (hpos d hdm).le
  have hpne : pairs ≠ [] := by
    rw [hpairs]
    simpa using hw
  have hctpos : 0 < ct := by
    rw [hct]
    apply List.sum_pos _ hpos
    simpa using hpne
  have hk : 0 < duration / ct := div_pos hd hctpos
  have hraw_ne : buildEntries 0 pairs ≠ [] := by
    intro hnil
    have := buildEntries_length 0 pairs
    rw [hnil] at this
    exact hpne (List.length_eq_zero.mp this.symm)
  rw [if_neg (by simpa using hraw_ne)]
  refine ⟨?_, ?_, ?_, ?_⟩
  · rw [List.length_map, buildEntries_length, hpairs, List.length_map]
  · intro e he
    obtain ⟨e₀, he₀, rfl⟩ := List.mem_map.mp he
    have h0 := buildEntries_start_ge 0 pairs hnonneg e₀ he₀
    exact mul_nonneg h0 hk.le
  · have hmm : ((buildEntries 0 pairs).map fun e =>
        (⟨e.word, e.start * (duration / ct), e.stop * (duration / ct)⟩ : WordEntry)).map
          WordEntry.start =
        ((buildEntries 0 pairs).map WordEntry.start).map fun x => x * (duration / ct) := by
      simp [List.map_map]
    rw [hmm]
    refine List.Pairwise.map _ ?_ (buildEntries_start_sorted 0 pairs hnonneg)
    intro a b hab
    exact mul_le_mul_of_nonneg_right hab hk.le
  · have hmm : ((buildEntries 0 pairs).map fun e =>
        (⟨e.word, e.start * (duration / ct), e.stop * (duration / ct)⟩ : WordEntry)).map
          WordEntry.stop =
        ((buildEntries 0 pairs).map WordEntry.stop).map fun x => x * (duration / ct) := by
      simp [List.map_map]
    rw [hmm, List.getLast?_map, buildEntries_last_stop 0 pairs hpne]
    simp only [Option.map_some, zero_add]
    rw [← hct]
    field_simp

/-- Witness for `C9_word_timing` on a concrete two-word caption. -/
theorem C9_word_timing_witness :
    0 < (2 : ℚ) ∧ (["hello", "world."] : List String) ≠ [] ∧
    ((estimate_word_timing ["hello", "world."] 2).length = 2 ∧
     (∀ e ∈ estimate_word_timing ["hello", "world."] 2, 0 ≤ e.start) ∧
     ((estimate_word_timing ["hello", "world."] 2).map WordEntry.start).Sorted (· ≤ ·) ∧
     ((estimate_word_timing ["hello", "world."] 2).map WordEntry.stop).getLast? = some 2) := by
  refine ⟨by norm_num, by simp, ?_⟩
  have h := C9_word_timing ["hello", "world."] 2 (by norm_num) (by simp)
  exact ⟨by rw [h.1]; rfl, h.2.1, h.2.2.1, h.2.2.2⟩

end AdGen
